import Mathlib

/-!
# Verification of the NSM notebook (`NSM.py`)

A shallow embedding of the Neural State Machine prototype: the concept
vocabulary encoder, the scene-graph tensors, the instruction pipeline,
the per-step simulation update and the final classifier, translated from
the PyTorch notebook into functions over `ℝ`.  Tensors with a leading
batch dimension become functions `Fin B → ...`; `torch.softmax`, `F.elu`,
`torch.bmm`, `nn.Linear` become the corresponding real-valued operations.
-/

namespace NSM

noncomputable section

/-- Notebook hyperparameter `EMBD_DIM = 7`. -/
def EMBD_DIM : ℕ := 7

/-- Notebook hyperparameter `OUT_DIM = 4`. -/
def OUT_DIM : ℕ := 4

/-- Notebook hyperparameter `BATCH = 32`. -/
def BATCH : ℕ := 32

/-- Notebook hyperparameter `N = 3` (number of simulation steps). -/
def N : ℕ := 3

/-- `torch.softmax` along an axis of length `k`, as a function on `Fin k → ℝ`. -/
def softmax {k : ℕ} (x : Fin k → ℝ) : Fin k → ℝ :=
  fun i => Real.exp (x i) / ∑ j, Real.exp (x j)

/-- `F.elu` with the default α = 1: `x` for positive inputs, `exp x - 1` otherwise. -/
def elu (x : ℝ) : ℝ := if 0 < x then x else Real.exp x - 1

/-- Dot product of two vectors (a bias-free `nn.Linear(d, 1)`, a `bmm` row). -/
def dot {d : ℕ} (x y : Fin d → ℝ) : ℝ := ∑ k, x k * y k

/-- A valid probability distribution over `Fin n`: nonnegative entries summing to 1. -/
def isDist {n : ℕ} (q : Fin n → ℝ) : Prop := (∀ s, 0 ≤ q s) ∧ ∑ s, q s = 1

lemma elu_zero : elu 0 = 0 := by simp [elu, Real.exp_zero]

lemma exp_sum_pos {k : ℕ} (hk : 0 < k) (x : Fin k → ℝ) :
    0 < ∑ j, Real.exp (x j) := by
  haveI : Nonempty (Fin k) := Fin.pos_iff_nonempty.mp hk
  exact Finset.sum_pos (fun j _ => Real.exp_pos (x j)) Finset.univ_nonempty

lemma softmax_pos {k : ℕ} (x : Fin k → ℝ) (i : Fin k) : 0 < softmax x i := by
  have hk : 0 < k := i.pos
  exact div_pos (Real.exp_pos (x i)) (exp_sum_pos hk x)

lemma softmax_nonneg {k : ℕ} (x : Fin k → ℝ) (i : Fin k) : 0 ≤ softmax x i :=
  le_of_lt (softmax_pos x i)

lemma softmax_sum_one {k : ℕ} (hk : 0 < k) (x : Fin k → ℝ) :
    ∑ i, softmax x i = 1 := by
  have hT : (∑ j, Real.exp (x j)) ≠ 0 := ne_of_gt (exp_sum_pos hk x)
  simp only [softmax]
  rw [← Finset.sum_div]
  exact div_self hT

lemma softmax_le_one {k : ℕ} (x : Fin k → ℝ) (i : Fin k) : softmax x i ≤ 1 := by
  have hk : 0 < k := i.pos
  have h := softmax_sum_one hk x
  calc softmax x i ≤ ∑ j, softmax x j :=
        Finset.single_le_sum (fun j _ => softmax_nonneg x j) (Finset.mem_univ i)
    _ = 1 := h

/-- Softmax on two entries separates inputs that agree in the first coordinate
but differ in the second. -/
lemma softmax_two_ne (x y : Fin 2 → ℝ) (h0 : x 0 = y 0) (h1 : x 1 ≠ y 1) :
    softmax x ≠ softmax y := by
  intro h
  have hx0 := congrFun h 0
  have hne : Real.exp (y 0) ≠ 0 := ne_of_gt (Real.exp_pos _)
  have hx0' : Real.exp (y 0) / (Real.exp (y 0) + Real.exp (x 1)) =
      Real.exp (y 0) / (Real.exp (y 0) + Real.exp (y 1)) := by
    simpa [softmax, Fin.sum_univ_two, h0] using hx0
  have h2 := (div_eq_div_iff (by positivity) (by positivity)).mp hx0'
  have hden : Real.exp (y 0) + Real.exp (y 1) = Real.exp (y 0) + Real.exp (x 1) :=
    mul_left_cancel₀ hne (by linarith)
  have : Real.exp (x 1) = Real.exp (y 1) := by linarith
  exact h1 (Real.exp_injective this)

/-! ## Concept vocabulary encoder (`NSM.py` lines 66-89) -/

section Vocabulary

variable {d : ℕ}
variable (glove : String → Fin d → ℝ)
variable (domainTypes : List String)
variable (propertyConcepts : String → List String)
variable (state_identities relationships : List String)
variable (c_prime : Fin d → ℝ)

/-- `property_types = ['identity'] + property_types + ['relations']`. -/
def fullPropertyTypes : List String :=
  "identity" :: domainTypes ++ ["relations"]

/-- The dictionary `property_concepts` after the notebook inserts the
`identity` and `relations` keys. -/
def conceptsFor (p : String) : List String :=
  if p = "identity" then state_identities
  else if p = "relations" then relationships
  else propertyConcepts p

/-- `D = torch.stack([to_glove(pt) for pt in property_types])`, one embedding
row per property type, as a list of rows. -/
def Dvocab : List (Fin d → ℝ) :=
  (fullPropertyTypes domainTypes).map glove

/-- `ordered_C`: per property type, the stack of its concept embeddings. -/
def ordered_C : List (List (Fin d → ℝ)) :=
  (fullPropertyTypes domainTypes).map
    (fun p => (conceptsFor propertyConcepts state_identities relationships p).map glove)

/-- `C = torch.cat(ordered_C, dim=0)` followed by `C = torch.cat([C, c_prime])`:
all concept embeddings in property order with the fallback row appended. -/
def Cvocab : List (Fin d → ℝ) :=
  (ordered_C glove domainTypes propertyConcepts state_identities relationships).flatten
    ++ [c_prime]

end Vocabulary

/-! ## Scene graph construction (`NSM.py` lines 114-122)

The notebook zero-initialises `E` and `adjacency_mask` and then loops over
`permutations(range(len(nodes)), 2)` (ordered pairs of *distinct* indices),
writing the edge embedding and flag 1 exactly at the pairs whose node names
form a key of the `relations` dictionary.  Each distinct pair is visited once,
so the loop's result is the function below; self pairs are never written. -/

section SceneGraph

variable {n d : ℕ}
variable (nodes : Fin n → String)
variable (relationsMap : String × String → Bool)
variable (edgeVec : Fin n → Fin n → Fin d → ℝ)

/-- `adjacency_mask` (one batch slice; the notebook builds `BATCH` identical
copies with `adjacency_mask[:, i, j] = 1`). -/
def adjacency_mask : Fin n → Fin n → ℝ :=
  fun i j => if i ≠ j ∧ relationsMap (nodes i, nodes j) then 1 else 0

/-- `E` as built by the loop (one batch slice; the notebook builds `BATCH`
identical copies with `E[:, i, j] = torch.rand(EMBD_DIM)`). -/
def E_scene : Fin n → Fin n → Fin d → ℝ :=
  fun i j => if i ≠ j ∧ relationsMap (nodes i, nodes j) then edgeVec i j else 0

end SceneGraph

/-! ## Model simulation: one recurrent step (`NSM.py` lines 205-362)

Batched tensors are functions out of `Fin B`.  Every definition below is the
direct translation of the corresponding notebook cell; `alt_γ_i_s` and
`alt_p_i_r` translate the commented-out "Alternative" cells. -/

section Simulation

variable {B n d L : ℕ}
variable (D : Fin (L + 2) → Fin d → ℝ)
variable (S : Fin B → Fin n → Fin (L + 1) → Fin d → ℝ)
variable (E : Fin B → Fin n → Fin n → Fin d → ℝ)
variable (property_W : Fin (L + 1) → Fin d → Fin d → ℝ)
variable (W_L_plus_1 : Fin d → Fin d → ℝ)
variable (w_r w_s : Fin d → ℝ)
variable (r_i : Fin B → Fin d → ℝ)
variable (p : Fin B → Fin n → ℝ)

/-- `p_0`: the uniform initial distribution `torch.ones(BATCH, n) / n`. -/
def p_zero (B n : ℕ) : Fin B → Fin n → ℝ := fun _ _ => 1 / (n : ℝ)

/-- `R_i = softmax(bmm(D, r_i), dim=1)`: relevance over the `L+2` property
types. -/
def R_i : Fin B → Fin (L + 2) → ℝ :=
  fun b => softmax (fun j => dot (D j) (r_i b))

/-- `r_i_prime = R_i[:, -1]`: the relations entry of `R_i`. -/
def r_i_prime : Fin B → ℝ :=
  fun b => R_i D r_i b (Fin.last (L + 1))

/-- `property_R_i = R_i[:, :-1]`: the non-relations entries of `R_i`. -/
def property_R_i : Fin B → Fin (L + 1) → ℝ :=
  fun b j => R_i D r_i b j.castSucc

/-- `γ_i_s = elu(sum_j property_R_i[j] * (matmul(Sᵀ, property_W)[j] * r_i))`:
per-node relevance features. -/
def γ_i_s : Fin B → Fin n → Fin d → ℝ :=
  fun b node k =>
    elu (∑ j, property_R_i D r_i b j *
      ((∑ m', S b node j m' * property_W j m' k) * r_i b k))

/-- `γ_i_e = elu(bmm(E.view(B, n*n, d), W_L_plus_1) * r_i)`: per-edge
relevance features. -/
def γ_i_e : Fin B → Fin n → Fin n → Fin d → ℝ :=
  fun b s' s k => elu ((∑ m', E b s' s m' * W_L_plus_1 m' k) * r_i b k)

/-- `p_i_r = softmax(W_r(sum_dim1(γ_i_e * p)), dim=1)`: the relational
update. -/
def p_i_r : Fin B → Fin n → ℝ :=
  fun b => softmax (fun s =>
    ∑ k, w_r k * (∑ s', γ_i_e E W_L_plus_1 r_i b s' s k * p b s'))

/-- `p_i_s = softmax(W_s(γ_i_s), dim=1)`: the property-lookup update. -/
def p_i_s : Fin B → Fin n → ℝ :=
  fun b => softmax (fun s =>
    ∑ k, w_s k * γ_i_s D S property_W r_i b s k)

/-- The convex blend `c * x + (1 - c) * y` used in the final update. -/
def blend {n : ℕ} (c : ℝ) (x y : Fin n → ℝ) : Fin n → ℝ :=
  fun s => c * x s + (1 - c) * y s

/-- `p_i = r_i_prime * p_i_r + (1 - r_i_prime) * p_i_s`: the distribution
produced by one simulation step. -/
def p_i_next : Fin B → Fin n → ℝ :=
  fun b s =>
    r_i_prime D r_i b * p_i_r E W_L_plus_1 w_r r_i p b s +
      (1 - r_i_prime D r_i b) * p_i_s D S property_W w_s r_i b s

/-- The commented-out alternative of `γ_i_s` (lines 263-275): per-property
stacked products summed over the property axis. -/
def alt_γ_i_s : Fin B → Fin n → Fin d → ℝ :=
  fun b node k =>
    elu (∑ j, (r_i b k * (∑ m', S b node j m' * property_W j m' k)) *
      property_R_i D r_i b j)

/-- The commented-out alternative of `p_i_r` (lines 317-339): the naive loop
that accumulates `p_i[s'] * γ_i_e[s', s]` only over pairs satisfying the
indicator `γ_i_e.sum(dim=3) > 0`. -/
def alt_p_i_r : Fin B → Fin n → ℝ :=
  fun b => softmax (fun s =>
    ∑ k, w_r k * (∑ s',
      if 0 < ∑ m', γ_i_e E W_L_plus_1 r_i b s' s m'
      then p b s' * γ_i_e E W_L_plus_1 r_i b s' s k else 0))

/-- Modelled from the spec: the adjacency-masked interpretation of the
relational update — each pair's contribution multiplied by its adjacency
flag.  The notebook's `p_i_r` applies no mask; this definition exists to be
compared with it. -/
def p_i_r_masked (mask : Fin n → Fin n → ℝ) : Fin B → Fin n → ℝ :=
  fun b => softmax (fun s =>
    ∑ k, w_r k * (∑ s',
      mask s' s * (γ_i_e E W_L_plus_1 r_i b s' s k * p b s')))

/-- Modelled from the spec: the simulation loop `for i in range(N)` that the
notebook documents around its simulation cells (lines 209-214) but executes
only for `i = 0`.  Step `i` consumes instruction `r · i` and maps the previous
distribution through one step (`p_i_next`); `simulate r 0` is the uniform
`p_0`. -/
def simulate (r : Fin B → ℕ → Fin d → ℝ) : ℕ → Fin B → Fin n → ℝ
  | 0 => p_zero B n
  | i + 1 =>
      p_i_next D S E property_W W_L_plus_1 w_r w_s
        (fun b => r b i) (simulate r i)

end Simulation

/-! ## Final classifier (`NSM.py` lines 371-389) -/

section Classifier

variable {B n d L oD : ℕ}
variable (D : Fin (L + 2) → Fin d → ℝ)
variable (S : Fin B → Fin n → Fin (L + 1) → Fin d → ℝ)
variable (r_N : Fin B → Fin d → ℝ)
variable (p_N : Fin B → Fin n → ℝ)
variable (q : Fin B → Fin d → ℝ)
variable (W1 : Fin (d + d) → Fin (d + d) → ℝ) (b1 : Fin (d + d) → ℝ)
variable (W2 : Fin oD → Fin (d + d) → ℝ) (b2 : Fin oD → ℝ)

/-- `property_R_N = softmax(bmm(D, r_N), dim=1)[:, :-1]`: property relevance
recomputed from the terminal instruction, relations row dropped. -/
def property_R_N : Fin B → Fin (L + 1) → ℝ :=
  fun b j => softmax (fun t => dot (D t) (r_N b)) j.castSucc

/-- `m = bmm(p_N.unsqueeze(1), sum(property_R_N.view(B,1,L+1,1) * S, dim=2))`:
the pooled summary vector. -/
def m : Fin B → Fin d → ℝ :=
  fun b k => ∑ node, p_N b node *
    (∑ j, property_R_N D r_N b j * S b node j k)

/-- The `nn.Sequential(Linear(2d, 2d), ELU(), Linear(2d, OUT_DIM))`
classifier: two affine layers with one ELU between them, no final
activation. -/
def classifierMLP (x : Fin (d + d) → ℝ) : Fin oD → ℝ :=
  fun o => (∑ k, W2 o k * elu ((∑ k', W1 k k' * x k') + b1 k)) + b2 o

/-- `pre_logits = classifier(cat([m, q], dim=2).squeeze(1))`: raw logits. -/
def pre_logits : Fin B → Fin oD → ℝ :=
  fun b => classifierMLP W1 b1 W2 b2
    (Fin.append (m D S r_N p_N b) (q b))

end Classifier

/-! ## Reasoning-instruction pipeline and end-to-end forward pass
(`NSM.py` lines 155-197 and the composition of all cells)

`nn.LSTM` is a PyTorch library module, not code of this repository; it is
modelled as an opaque function applied to one batch element's sequence
(PyTorch's LSTM processes each batch element independently).  `enc` returns
the final hidden pair `(h_n, c_n)` of the encoder; `dec` maps a (constant)
input sequence and an initial hidden pair to the per-timestep outputs. -/

section Pipeline

variable {B Q M n d L oD : ℕ}
variable (Cmat : Fin (M + 1) → Fin d → ℝ)
variable (Wbil : Fin d → Fin d → ℝ)
variable (enc : (Fin Q → Fin d → ℝ) → (Fin d → ℝ) × (Fin d → ℝ))
variable (dec : (ℕ → Fin d → ℝ) → (Fin d → ℝ) × (Fin d → ℝ) → ℕ → Fin d → ℝ)
variable (embd_questions : Fin B → Fin Q → Fin d → ℝ)

/-- `P_i = softmax(bmm(bmm(embd_questions, W), Cᵀ), dim=2)`: attention of each
question token over the concept table (fallback row last). -/
def P_i : Fin B → Fin Q → Fin (M + 1) → ℝ :=
  fun b t => softmax (fun c =>
    ∑ k', (∑ k, embd_questions b t k * Wbil k k') * Cmat c k')

/-- `V = P_i[:, :, -1].unsqueeze(2) * embd_questions + bmm(P_i[:, :, :-1],
C[:-1, :])`: the normalised question words. -/
def V : Fin B → Fin Q → Fin d → ℝ :=
  fun b t k =>
    P_i Cmat Wbil embd_questions b t (Fin.last M) * embd_questions b t k +
      ∑ c : Fin M, P_i Cmat Wbil embd_questions b t c.castSucc *
        Cmat c.castSucc k

/-- `q = h_n` of the encoder LSTM run on `V`. -/
def qctx : Fin B → Fin d → ℝ :=
  fun b => (enc (V Cmat Wbil embd_questions b)).1

/-- `h = decoder_lstm(q.expand(B, N+1, d), encoder_hidden)`: decoder outputs
on the constant sequence `q`. -/
def h_dec : Fin B → ℕ → Fin d → ℝ :=
  fun b => dec (fun _ => qctx Cmat Wbil enc embd_questions b)
    (enc (V Cmat Wbil embd_questions b))

/-- `r = bmm(softmax(bmm(h, Vᵀ), dim=2), V)`: each decoder output re-attends
over `V` to produce the reasoning instructions. -/
def r_instr : Fin B → ℕ → Fin d → ℝ :=
  fun b i k =>
    ∑ t, softmax (fun t' =>
        ∑ k', h_dec Cmat Wbil enc dec embd_questions b i k' *
          V Cmat Wbil embd_questions b t' k') t *
      V Cmat Wbil embd_questions b t k

variable (D : Fin (L + 2) → Fin d → ℝ)
variable (S : Fin B → Fin n → Fin (L + 1) → Fin d → ℝ)
variable (E : Fin B → Fin n → Fin n → Fin d → ℝ)
variable (property_W : Fin (L + 1) → Fin d → Fin d → ℝ)
variable (W_L_plus_1 : Fin d → Fin d → ℝ)
variable (w_r w_s : Fin d → ℝ)
variable (q : Fin B → Fin d → ℝ)
variable (W1 : Fin (d + d) → Fin (d + d) → ℝ) (b1 : Fin (d + d) → ℝ)
variable (W2 : Fin oD → Fin (d + d) → ℝ) (b2 : Fin oD → ℝ)

/-- The classifier applied after `steps` simulation steps: it reads the
terminal instruction `r · steps` and the distribution produced by all
`steps` steps. -/
def forwardLogits (r : Fin B → ℕ → Fin d → ℝ) (steps : ℕ) : Fin B → Fin oD → ℝ :=
  pre_logits D S (fun b => r b steps)
    (simulate D S E property_W W_L_plus_1 w_r w_s r steps)
    q W1 b1 W2 b2

/-- The whole forward pass: instructions from the embedded question, `N`
(= `steps`) simulation steps, then the classifier on `m` and `q`. -/
def nsmForward (steps : ℕ) : Fin B → Fin oD → ℝ :=
  forwardLogits D S E property_W W_L_plus_1 w_r w_s
    (qctx Cmat Wbil enc embd_questions) W1 b1 W2 b2
    (r_instr Cmat Wbil enc dec embd_questions) steps

end Pipeline

/-! ## Concrete instances used below

A two-node scene whose `relations` dictionary is empty, with `d = 1`,
`B = 1`, identity weights, the all-ones instruction and the uniform
distribution. -/

/-- Two node names. -/
def cNodes : Fin 2 → String := fun i => if i = 0 then "kitten" else "person"

/-- An empty `relations` dictionary: no ordered pair is related. -/
def cRel : String × String → Bool := fun _ => false

/-- The edge tensor the notebook's loop builds on `cNodes`/`cRel` (flag 0 and
zero embedding everywhere), replicated over the batch. -/
def cE1 : Fin 1 → Fin 2 → Fin 2 → Fin 1 → ℝ :=
  fun _ => E_scene cNodes cRel (fun _ _ _ => 1)

/-- `cE1` with the stored embedding of the absent (flag-0) edge `(0, 1)`
perturbed to `-1`. -/
def cE2 : Fin 1 → Fin 2 → Fin 2 → Fin 1 → ℝ :=
  fun b s' s k => if s' = 0 ∧ s = 1 then -1 else cE1 b s' s k

/-- Identity 1×1 weight `W_{L+1}`. -/
def cW : Fin 1 → Fin 1 → ℝ := fun _ _ => 1

/-- Weight of the 1-dimensional bias-free linear map `W_r`. -/
def cw : Fin 1 → ℝ := fun _ => 1

/-- The all-ones instruction. -/
def cr : Fin 1 → Fin 1 → ℝ := fun _ _ => 1

/-- The uniform two-node distribution. -/
def cp : Fin 1 → Fin 2 → ℝ := fun _ _ => 1 / 2

/-! ## Supporting lemmas -/

lemma cE1_apply (b : Fin 1) (s' s : Fin 2) (k : Fin 1) : cE1 b s' s k = 0 := by
  simp [cE1, E_scene, cRel]

lemma γ_cE1 (b : Fin 1) (s' s : Fin 2) (k : Fin 1) :
    γ_i_e cE1 cW cr b s' s k = 0 := by
  simp [γ_i_e, cE1_apply, elu, Real.exp_zero]

lemma γ_cE2 (b : Fin 1) (s' s : Fin 2) (k : Fin 1) :
    γ_i_e cE2 cW cr b s' s k =
      if s' = 0 ∧ s = 1 then Real.exp (-1) - 1 else 0 := by
  by_cases h : s' = 0 ∧ s = 1
  · simp only [γ_i_e, cE2, if_pos h, cW, cr, Fin.sum_univ_one, elu, if_pos h]
    norm_num
  · simp only [γ_i_e, cE2, if_neg h, cW, cr, Fin.sum_univ_one, if_neg h]
    simp [cE1_apply, elu, Real.exp_zero]

lemma isDist_softmax {k : ℕ} (hk : 0 < k) (x : Fin k → ℝ) : isDist (softmax x) :=
  ⟨fun s => softmax_nonneg x s, softmax_sum_one hk x⟩

lemma isDist_p_i_next {B n d L : ℕ} (D : Fin (L + 2) → Fin d → ℝ)
    (S : Fin B → Fin n → Fin (L + 1) → Fin d → ℝ)
    (E : Fin B → Fin n → Fin n → Fin d → ℝ)
    (property_W : Fin (L + 1) → Fin d → Fin d → ℝ)
    (W_L_plus_1 : Fin d → Fin d → ℝ) (w_r w_s : Fin d → ℝ)
    (r_i : Fin B → Fin d → ℝ) (p : Fin B → Fin n → ℝ)
    (hn : 0 < n) (b : Fin B) :
    isDist (p_i_next D S E property_W W_L_plus_1 w_r w_s r_i p b) := by
  have hr0 : 0 ≤ r_i_prime D r_i b :=
    softmax_nonneg (fun j => dot (D j) (r_i b)) (Fin.last (L + 1))
  have hr1 : r_i_prime D r_i b ≤ 1 :=
    softmax_le_one (fun j => dot (D j) (r_i b)) (Fin.last (L + 1))
  have hpr : isDist (p_i_r E W_L_plus_1 w_r r_i p b) :=
    isDist_softmax hn
      (fun s => ∑ k, w_r k * (∑ s', γ_i_e E W_L_plus_1 r_i b s' s k * p b s'))
  have hps : isDist (p_i_s D S property_W w_s r_i b) :=
    isDist_softmax hn (fun s => ∑ k, w_s k * γ_i_s D S property_W r_i b s k)
  constructor
  · intro s
    have h1 : 0 ≤ r_i_prime D r_i b * p_i_r E W_L_plus_1 w_r r_i p b s :=
      mul_nonneg hr0 (hpr.1 s)
    have h2 : 0 ≤ (1 - r_i_prime D r_i b) * p_i_s D S property_W w_s r_i b s :=
      mul_nonneg (by linarith) (hps.1 s)
    exact add_nonneg h1 h2
  · have hsum : ∑ s, p_i_next D S E property_W W_L_plus_1 w_r w_s r_i p b s =
        r_i_prime D r_i b * ∑ s, p_i_r E W_L_plus_1 w_r r_i p b s +
          (1 - r_i_prime D r_i b) * ∑ s, p_i_s D S property_W w_s r_i b s := by
      simp only [p_i_next, Finset.sum_add_distrib, Finset.mul_sum]
    rw [hsum, hpr.2, hps.2]; ring

lemma isDist_p_zero {B n : ℕ} (hn : 0 < n) (b : Fin B) : isDist (p_zero B n b) := by
  constructor
  · intro s
    have : (0 : ℝ) < n := by exact_mod_cast hn
    simp only [p_zero]
    positivity
  · have hne : (n : ℝ) ≠ 0 := by exact_mod_cast hn.ne'
    simp [p_zero, Finset.sum_const, hne]

/-! ## Claims -/

/-- **C2.** For every valid input and after every simulation step, the node
distribution is a valid probability distribution per batch element: the
initial `p_0` is uniform hence a distribution, `p_i_r` and `p_i_s` are
softmax outputs hence distributions, the blend coefficient `r_i_prime` lies
in `[0, 1]`, and every `simulate r i b` has nonnegative entries summing
to 1. -/
theorem simulate_isDist {B n d L : ℕ} (D : Fin (L + 2) → Fin d → ℝ)
    (S : Fin B → Fin n → Fin (L + 1) → Fin d → ℝ)
    (E : Fin B → Fin n → Fin n → Fin d → ℝ)
    (property_W : Fin (L + 1) → Fin d → Fin d → ℝ)
    (W_L_plus_1 : Fin d → Fin d → ℝ) (w_r w_s : Fin d → ℝ)
    (r : Fin B → ℕ → Fin d → ℝ) (hn : 0 < n) :
    (∀ b, isDist (p_zero B n b)) ∧
    (∀ (r_i : Fin B → Fin d → ℝ) (p : Fin B → Fin n → ℝ) (b : Fin B),
      isDist (p_i_r E W_L_plus_1 w_r r_i p b)) ∧
    (∀ (r_i : Fin B → Fin d → ℝ) (b : Fin B),
      isDist (p_i_s D S property_W w_s r_i b)) ∧
    (∀ (r_i : Fin B → Fin d → ℝ) (b : Fin B),
      0 ≤ r_i_prime D r_i b ∧ r_i_prime D r_i b ≤ 1) ∧
    (∀ i b, isDist (simulate D S E property_W W_L_plus_1 w_r w_s r i b)) := by
  refine ⟨fun b => isDist_p_zero hn b,
    fun r_i p b => isDist_softmax hn
      (fun s => ∑ k, w_r k * (∑ s', γ_i_e E W_L_plus_1 r_i b s' s k * p b s')),
    fun r_i b => isDist_softmax hn
      (fun s => ∑ k, w_s k * γ_i_s D S property_W r_i b s k),
    fun r_i b => ⟨softmax_nonneg (fun j => dot (D j) (r_i b)) (Fin.last (L + 1)),
      softmax_le_one (fun j => dot (D j) (r_i b)) (Fin.last (L + 1))⟩, ?_⟩
  intro i b
  cases i with
  | zero => exact isDist_p_zero hn b
  | succ i => exact isDist_p_i_next D S E property_W W_L_plus_1 w_r w_s _ _ hn b

/-- Witness for C2 at a concrete instance (`B = 1`, `n = 2`, `d = 1`,
`L = 0`, all-zero weights and instructions, three steps). -/
theorem simulate_isDist_witness :
    isDist (simulate (fun _ _ => (0 : ℝ) : Fin 2 → Fin 1 → ℝ)
      (fun _ _ _ _ => (0 : ℝ) : Fin 1 → Fin 2 → Fin 1 → Fin 1 → ℝ)
      (fun _ _ _ _ => (0 : ℝ) : Fin 1 → Fin 2 → Fin 2 → Fin 1 → ℝ)
      (fun _ _ _ => (0 : ℝ)) (fun _ _ => (0 : ℝ)) (fun _ => (0 : ℝ))
      (fun _ => (0 : ℝ)) (fun _ _ _ => (0 : ℝ)) 3 0) :=
  (simulate_isDist _ _ _ _ _ _ _ _ (by norm_num)).2.2.2.2 3 0

/-- **C4.** The blended distribution satisfies
`p_i = r_i' * p_i^r + (1 - r_i') * p_i^s` per batch element, and the blend
operation returns `p_i^s` exactly when the coefficient is 0 and `p_i^r`
exactly when it is 1. -/
theorem blend_convex_combination {B n d L : ℕ} (D : Fin (L + 2) → Fin d → ℝ)
    (S : Fin B → Fin n → Fin (L + 1) → Fin d → ℝ)
    (E : Fin B → Fin n → Fin n → Fin d → ℝ)
    (property_W : Fin (L + 1) → Fin d → Fin d → ℝ)
    (W_L_plus_1 : Fin d → Fin d → ℝ) (w_r w_s : Fin d → ℝ)
    (r_i : Fin B → Fin d → ℝ) (p : Fin B → Fin n → ℝ) :
    (∀ b, p_i_next D S E property_W W_L_plus_1 w_r w_s r_i p b =
        blend (r_i_prime D r_i b) (p_i_r E W_L_plus_1 w_r r_i p b)
          (p_i_s D S property_W w_s r_i b)) ∧
    (∀ (c : ℝ) (x y : Fin n → ℝ), c = 0 → blend c x y = y) ∧
    (∀ (c : ℝ) (x y : Fin n → ℝ), c = 1 → blend c x y = x) := by
  refine ⟨fun b => rfl, ?_, ?_⟩
  · intro c x y hc
    funext s
    simp [blend, hc]
  · intro c x y hc
    funext s
    simp [blend, hc]

/-- Witness for C4: at coefficient 0 the blend is the second distribution,
at coefficient 1 it is the first, on concrete two-node distributions. -/
theorem blend_convex_combination_witness :
    blend (0 : ℝ) (fun _ : Fin 2 => (1 : ℝ)) (fun _ : Fin 2 => (1 : ℝ) / 2) =
      (fun _ : Fin 2 => (1 : ℝ) / 2) ∧
    blend (1 : ℝ) (fun _ : Fin 2 => (1 : ℝ)) (fun _ : Fin 2 => (1 : ℝ) / 2) =
      (fun _ : Fin 2 => (1 : ℝ)) := by
  constructor
  · exact (blend_convex_combination (fun _ _ => (0 : ℝ) : Fin 2 → Fin 1 → ℝ)
      (fun _ _ _ _ => (0 : ℝ) : Fin 1 → Fin 2 → Fin 1 → Fin 1 → ℝ)
      (fun _ _ _ _ => (0 : ℝ)) (fun _ _ _ => (0 : ℝ)) (fun _ _ => (0 : ℝ))
      (fun _ => (0 : ℝ)) (fun _ => (0 : ℝ)) (fun _ _ => (0 : ℝ))
      (fun _ _ => (0 : ℝ))).2.1 0 _ _ rfl
  · exact (blend_convex_combination (fun _ _ => (0 : ℝ) : Fin 2 → Fin 1 → ℝ)
      (fun _ _ _ _ => (0 : ℝ) : Fin 1 → Fin 2 → Fin 1 → Fin 1 → ℝ)
      (fun _ _ _ _ => (0 : ℝ)) (fun _ _ _ => (0 : ℝ)) (fun _ _ => (0 : ℝ))
      (fun _ => (0 : ℝ)) (fun _ => (0 : ℝ)) (fun _ _ => (0 : ℝ))
      (fun _ _ => (0 : ℝ))).2.2 1 _ _ rfl

/-- **C10.** The classifier's pooling weights are the first `L+1` entries of
the softmax over all `L+2` property types with the relations entry dropped;
per batch element they sum to `1 - (relations entry)`, which is strictly
less than 1. -/
theorem property_R_N_mass_deficit {B d L : ℕ} (D : Fin (L + 2) → Fin d → ℝ)
    (r_N : Fin B → Fin d → ℝ) (b : Fin B) :
    (∀ j, property_R_N D r_N b j =
        softmax (fun t => dot (D t) (r_N b)) j.castSucc) ∧
    (∑ j, property_R_N D r_N b j =
        1 - softmax (fun t => dot (D t) (r_N b)) (Fin.last (L + 1))) ∧
    (∑ j, property_R_N D r_N b j < 1) := by
  have htot : ∑ t, softmax (fun t => dot (D t) (r_N b)) t = 1 :=
    softmax_sum_one (Nat.succ_pos _) _
  have hsplit : ∑ t, softmax (fun t => dot (D t) (r_N b)) t =
      (∑ j : Fin (L + 1), softmax (fun t => dot (D t) (r_N b)) j.castSucc) +
        softmax (fun t => dot (D t) (r_N b)) (Fin.last (L + 1)) :=
    Fin.sum_univ_castSucc _
  have hlast : 0 < softmax (fun t => dot (D t) (r_N b)) (Fin.last (L + 1)) :=
    softmax_pos _ _
  refine ⟨fun j => rfl, ?_, ?_⟩
  · simp only [property_R_N]
    linarith [hsplit, htot]
  · simp only [property_R_N]
    linarith [hsplit, htot]

/-- **C8.** The vocabulary encoder lays out `D` with one row per property
type in the order identity, domain properties, relations (so the last row is
the relations type), and lays out `C` as the concatenation of each
property's concept embeddings in property order followed by exactly one
fallback row `c'` (so `C` has `totalConcepts + 1` rows and ends with
`c'`). -/
theorem vocabulary_layout {d : ℕ} (glove : String → Fin d → ℝ)
    (domainTypes : List String) (propertyConcepts : String → List String)
    (state_identities relationships : List String) (c_prime : Fin d → ℝ) :
    (Dvocab glove domainTypes =
        glove "identity" :: domainTypes.map glove ++ [glove "relations"]) ∧
    ((Dvocab glove domainTypes : List (Fin d → ℝ)).length =
        domainTypes.length + 2) ∧
    ((Dvocab glove domainTypes).getLast? = some (glove "relations")) ∧
    (Cvocab glove domainTypes propertyConcepts state_identities relationships
        c_prime =
      ((fullPropertyTypes domainTypes).map (fun prop =>
        (conceptsFor propertyConcepts state_identities relationships prop).map
          glove)).flatten ++ [c_prime]) ∧
    ((Cvocab glove domainTypes propertyConcepts state_identities relationships
        c_prime).length =
      ((fullPropertyTypes domainTypes).map (fun prop =>
        (conceptsFor propertyConcepts state_identities relationships
          prop).length)).sum + 1) ∧
    ((Cvocab glove domainTypes propertyConcepts state_identities relationships
        c_prime).getLast? = some c_prime) := by
  refine ⟨?_, ?_, ?_, rfl, ?_, ?_⟩
  · simp [Dvocab, fullPropertyTypes]
  · simp [Dvocab, fullPropertyTypes]
  · have h : Dvocab glove domainTypes =
        (glove "identity" :: domainTypes.map glove) ++ [glove "relations"] := by
      simp [Dvocab, fullPropertyTypes]
    rw [h, List.getLast?_concat]
  · simp only [Cvocab, List.length_append, List.length_flatten, ordered_C,
      List.map_map, List.length_singleton]
    congr 1
    congr 1
    apply List.map_congr_left
    intro prop _
    simp [List.length_map]
  · rw [Cvocab, List.getLast?_concat]

/-- **C9.** On the constructed scene tensors, every directed pair with
adjacency flag 0 — in particular every self-loop — stores the zero vector in
`E`; there `γ_i_e` equals `elu 0 = 0`, the pair contributes exactly zero to
the relational sum, and the unmasked `p_i_r` coincides with the
adjacency-masked interpretation. -/
theorem absent_edges_zero_contribution {B n d : ℕ} (nodes : Fin n → String)
    (relationsMap : String × String → Bool)
    (edgeVec : Fin n → Fin n → Fin d → ℝ)
    (W_L_plus_1 : Fin d → Fin d → ℝ) (w_r : Fin d → ℝ)
    (r_i : Fin B → Fin d → ℝ) (p : Fin B → Fin n → ℝ) :
    (∀ s : Fin n, adjacency_mask nodes relationsMap s s = 0) ∧
    (∀ s' s : Fin n, adjacency_mask nodes relationsMap s' s = 0 →
      E_scene nodes relationsMap edgeVec s' s = 0 ∧
      (∀ (b : Fin B) (k : Fin d),
        γ_i_e (fun _ => E_scene nodes relationsMap edgeVec) W_L_plus_1 r_i
            b s' s k = elu 0 ∧
        γ_i_e (fun _ => E_scene nodes relationsMap edgeVec) W_L_plus_1 r_i
            b s' s k * p b s' = 0)) ∧
    p_i_r (fun _ => E_scene nodes relationsMap edgeVec) W_L_plus_1 w_r r_i p =
      p_i_r_masked (fun _ => E_scene nodes relationsMap edgeVec) W_L_plus_1
        w_r r_i p (adjacency_mask nodes relationsMap) := by
  have hcond : ∀ s' s : Fin n, adjacency_mask nodes relationsMap s' s = 0 →
      ¬(s' ≠ s ∧ relationsMap (nodes s', nodes s)) := by
    intro s' s h hc
    rw [adjacency_mask, if_pos hc] at h
    norm_num at h
  have hE0 : ∀ s' s : Fin n, adjacency_mask nodes relationsMap s' s = 0 →
      E_scene nodes relationsMap edgeVec s' s = 0 := by
    intro s' s h
    rw [E_scene, if_neg (hcond s' s h)]
  have hγ : ∀ s' s : Fin n, adjacency_mask nodes relationsMap s' s = 0 →
      ∀ (b : Fin B) (k : Fin d),
        γ_i_e (fun _ => E_scene nodes relationsMap edgeVec) W_L_plus_1 r_i
          b s' s k = elu 0 := by
    intro s' s h b k
    simp only [γ_i_e, hE0 s' s h, Pi.zero_apply, zero_mul,
      Finset.sum_const_zero]
  refine ⟨?_, ?_, ?_⟩
  · intro s
    simp [adjacency_mask]
  · intro s' s h
    refine ⟨hE0 s' s h, fun b k => ⟨hγ s' s h b k, ?_⟩⟩
    rw [hγ s' s h b k, elu_zero, zero_mul]
  · funext b
    simp only [p_i_r, p_i_r_masked]
    refine congrArg softmax ?_
    funext s
    refine Finset.sum_congr rfl fun k _ => ?_
    congr 1
    refine Finset.sum_congr rfl fun s' _ => ?_
    by_cases hm : adjacency_mask nodes relationsMap s' s = 0
    · rw [hγ s' s hm b k, elu_zero, zero_mul, hm, zero_mul]
    · have h1 : adjacency_mask nodes relationsMap s' s = 1 := by
        rw [adjacency_mask]
        rw [adjacency_mask] at hm
        by_cases hc : s' ≠ s ∧ relationsMap (nodes s', nodes s)
        · rw [if_pos hc]
        · exact absurd (if_neg hc) hm
      rw [h1, one_mul]

/-- Witness for C9 on the concrete two-node relation-free scene: the absent
edge `(0, 1)` carries the zero vector and its `γ_i_e` is `elu 0`. -/
theorem absent_edges_zero_contribution_witness :
    E_scene cNodes cRel (fun _ _ _ => (1 : ℝ) : Fin 2 → Fin 2 → Fin 1 → ℝ)
      0 1 = 0 ∧
    γ_i_e (fun _ => E_scene cNodes cRel
        (fun _ _ _ => (1 : ℝ) : Fin 2 → Fin 2 → Fin 1 → ℝ) : Fin 1 → _) cW cr
      0 0 1 0 = elu 0 := by
  have h := (absent_edges_zero_contribution cNodes cRel
    (fun _ _ _ => (1 : ℝ) : Fin 2 → Fin 2 → Fin 1 → ℝ)
    cW cw cr cp).2.1 0 1 (by simp [adjacency_mask, cRel])
  exact ⟨h.1, (h.2 0 0).1⟩

/-- **C1.** The simulation starts from the uniform `p_0`, step `i` consumes
instruction `r · i` and produces the next distribution from the previous one
by exactly one application of `p_i_next`, and the classifier (`forwardLogits`)
reads the distribution produced by all `steps` steps; the notebook's `N`
is 3. -/
theorem simulate_runs_N_steps {B n d L oD : ℕ} (D : Fin (L + 2) → Fin d → ℝ)
    (S : Fin B → Fin n → Fin (L + 1) → Fin d → ℝ)
    (E : Fin B → Fin n → Fin n → Fin d → ℝ)
    (property_W : Fin (L + 1) → Fin d → Fin d → ℝ)
    (W_L_plus_1 : Fin d → Fin d → ℝ) (w_r w_s : Fin d → ℝ)
    (q : Fin B → Fin d → ℝ)
    (W1 : Fin (d + d) → Fin (d + d) → ℝ) (b1 : Fin (d + d) → ℝ)
    (W2 : Fin oD → Fin (d + d) → ℝ) (b2 : Fin oD → ℝ)
    (r : Fin B → ℕ → Fin d → ℝ) :
    N = 3 ∧
    simulate D S E property_W W_L_plus_1 w_r w_s r 0 = p_zero B n ∧
    (∀ i, simulate D S E property_W W_L_plus_1 w_r w_s r (i + 1) =
      p_i_next D S E property_W W_L_plus_1 w_r w_s (fun b => r b i)
        (simulate D S E property_W W_L_plus_1 w_r w_s r i)) ∧
    (∀ steps,
      forwardLogits D S E property_W W_L_plus_1 w_r w_s q W1 b1 W2 b2 r
          steps =
        pre_logits D S (fun b => r b steps)
          (simulate D S E property_W W_L_plus_1 w_r w_s r steps)
          q W1 b1 W2 b2) :=
  ⟨rfl, rfl, fun _ => rfl, fun _ => rfl⟩

/-- **C3 counterexample.** In the concrete relation-free two-node scene, the
pair `(0, 1)` has adjacency flag 0, yet perturbing its stored embedding (from
the constructed `cE1` to `cE2`, which differ only at that entry) changes
`p_i_r`: the code gates contributions by the stored embedding value, not by
the adjacency mask. -/
theorem perturbing_absent_edge_changes_p_i_r :
    adjacency_mask cNodes cRel 0 1 = 0 ∧
    cE2 0 0 1 ≠ cE1 0 0 1 ∧
    p_i_r cE2 cW cw cr cp ≠ p_i_r cE1 cW cw cr cp := by
  refine ⟨by simp [adjacency_mask, cRel], ?_, ?_⟩
  · intro h
    have h0 := congrFun h 0
    simp [cE2, cE1_apply] at h0
  · intro h
    have hb := congrFun h 0
    simp only [p_i_r] at hb
    refine softmax_two_ne _ _ ?_ ?_ hb
    · simp [γ_cE2, γ_cE1, cw, cp, Fin.sum_univ_one, Fin.sum_univ_two]
    · simp only [γ_cE2, γ_cE1, cw, cp, Fin.sum_univ_one, Fin.sum_univ_two]
      have hlt : Real.exp (-1) < 1 := Real.exp_lt_one_iff.mpr (by norm_num)
      intro hc
      norm_num at hc
      nlinarith [hc]

/-- **C3 (amended).** The adjacency-masked interpretation of the relational
update is invariant under perturbing the stored embeddings of flag-0 pairs:
if two edge tensors agree at every pair whose adjacency flag is nonzero,
the masked `p_i_r` computed from them coincide. -/
theorem masked_p_i_r_absent_edge_invariance {B n d : ℕ}
    (nodes : Fin n → String) (relationsMap : String × String → Bool)
    (E E' : Fin B → Fin n → Fin n → Fin d → ℝ)
    (W_L_plus_1 : Fin d → Fin d → ℝ) (w_r : Fin d → ℝ)
    (r_i : Fin B → Fin d → ℝ) (p : Fin B → Fin n → ℝ)
    (h : ∀ (b : Fin B) (s' s : Fin n),
      adjacency_mask nodes relationsMap s' s ≠ 0 → E b s' s = E' b s' s) :
    p_i_r_masked E W_L_plus_1 w_r r_i p (adjacency_mask nodes relationsMap) =
      p_i_r_masked E' W_L_plus_1 w_r r_i p
        (adjacency_mask nodes relationsMap) := by
  funext b
  simp only [p_i_r_masked]
  refine congrArg softmax ?_
  funext s
  refine Finset.sum_congr rfl fun k _ => ?_
  congr 1
  refine Finset.sum_congr rfl fun s' _ => ?_
  by_cases hm : adjacency_mask nodes relationsMap s' s = 0
  · rw [hm, zero_mul, zero_mul]
  · have hE := h b s' s hm
    simp only [γ_i_e, hE]

/-- Witness for the amended C3: `cE1` and `cE2` agree on every nonzero-flag
pair of the relation-free scene (vacuously), so their masked relational
updates coincide. -/
theorem masked_p_i_r_absent_edge_invariance_witness :
    p_i_r_masked cE1 cW cw cr cp (adjacency_mask cNodes cRel) =
      p_i_r_masked cE2 cW cw cr cp (adjacency_mask cNodes cRel) :=
  masked_p_i_r_absent_edge_invariance cNodes cRel cE1 cE2 cW cw cr cp
    (fun b s' s hm => absurd (by simp [adjacency_mask, cRel]) hm)

/-- **C5 counterexample.** On the perturbed edge tensor `cE2`, the pair
`(0, 1)` has `γ_i_e` summing to `exp (-1) - 1 < 0`, so the naive loop's
indicator `γ_i_e.sum(dim=3) > 0` drops a nonzero contribution and the
loop-based `alt_p_i_r` differs from the vectorized `p_i_r`: the two
formulations are not identical for arbitrary inputs. -/
theorem alt_p_i_r_differs_on_negative_edge :
    alt_p_i_r cE2 cW cw cr cp ≠ p_i_r cE2 cW cw cr cp := by
  intro h
  have hb := congrFun h 0
  simp only [alt_p_i_r, p_i_r] at hb
  have hlt : Real.exp (-1) < 1 := Real.exp_lt_one_iff.mpr (by norm_num)
  refine softmax_two_ne _ _ ?_ ?_ hb
  · simp [γ_cE2, cw, cp, Fin.sum_univ_one, Fin.sum_univ_two]
  · have hng : ¬ (0 < Real.exp (-1) - 1) := by linarith
    simp only [γ_cE2, cw, cp, Fin.sum_univ_one, Fin.sum_univ_two]
    norm_num [hng]
    intro hc
    linarith

/-- **C5 (amended).** The vectorized and naive-loop formulations of `γ_i_s`
agree for all inputs; the loop-based `alt_p_i_r` agrees with the vectorized
`p_i_r` provided every pair rejected by the indicator
`γ_i_e.sum(dim=3) > 0` has identically zero `γ_i_e` (as holds on the
notebook's constructed inputs, where absent edges carry zero embeddings). -/
theorem alt_formulations_equivalence {B n d L : ℕ}
    (D : Fin (L + 2) → Fin d → ℝ)
    (S : Fin B → Fin n → Fin (L + 1) → Fin d → ℝ)
    (E : Fin B → Fin n → Fin n → Fin d → ℝ)
    (property_W : Fin (L + 1) → Fin d → Fin d → ℝ)
    (W_L_plus_1 : Fin d → Fin d → ℝ) (w_r : Fin d → ℝ)
    (r_i : Fin B → Fin d → ℝ) (p : Fin B → Fin n → ℝ) :
    (∀ (b : Fin B) (node : Fin n) (k : Fin d),
      alt_γ_i_s D S property_W r_i b node k =
        γ_i_s D S property_W r_i b node k) ∧
    ((∀ (b : Fin B) (s' s : Fin n),
        ¬(0 < ∑ m', γ_i_e E W_L_plus_1 r_i b s' s m') →
        ∀ k, γ_i_e E W_L_plus_1 r_i b s' s k = 0) →
      alt_p_i_r E W_L_plus_1 w_r r_i p = p_i_r E W_L_plus_1 w_r r_i p) := by
  constructor
  · intro b node k
    simp only [alt_γ_i_s, γ_i_s]
    congr 1
    refine Finset.sum_congr rfl fun j _ => ?_
    ring
  · intro h
    funext b
    simp only [alt_p_i_r, p_i_r]
    refine congrArg softmax ?_
    funext s
    refine Finset.sum_congr rfl fun k _ => ?_
    congr 1
    refine Finset.sum_congr rfl fun s' _ => ?_
    by_cases hc : 0 < ∑ m', γ_i_e E W_L_plus_1 r_i b s' s m'
    · rw [if_pos hc, mul_comm]
    · rw [if_neg hc, h b s' s hc k, zero_mul]

/-- Witness for the amended C5 on the constructed relation-free scene: all
`γ_i_e` vanish, the indicator hypothesis holds, and the two formulations of
the relational update coincide. -/
theorem alt_formulations_equivalence_witness :
    alt_p_i_r cE1 cW cw cr cp = p_i_r cE1 cW cw cr cp :=
  (alt_formulations_equivalence
    (fun _ _ => (0 : ℝ) : Fin 2 → Fin 1 → ℝ)
    (fun _ _ _ _ => (0 : ℝ) : Fin 1 → Fin 2 → Fin 1 → Fin 1 → ℝ)
    cE1 (fun _ _ _ => (0 : ℝ)) cW cw cr cp).2
    (fun b s' s _ k => γ_cE1 b s' s k)

/-- **C7.** The classifier recomputes `property_R_N` as the property-type
softmax of `D · r_N` with the relations row excluded, pools node states
weighted by `property_R_N` and the final distribution into `m`, concatenates
`m` with `q`, applies two affine layers with exactly one ELU between them
and no final activation, and `forwardLogits` feeds it the terminal
instruction `r · steps` — an instruction no simulation step consumes, since
`simulate` only ever reads instruction indices below `steps`. -/
theorem final_classifier_structure {B n d L oD : ℕ}
    (D : Fin (L + 2) → Fin d → ℝ)
    (S : Fin B → Fin n → Fin (L + 1) → Fin d → ℝ)
    (E : Fin B → Fin n → Fin n → Fin d → ℝ)
    (property_W : Fin (L + 1) → Fin d → Fin d → ℝ)
    (W_L_plus_1 : Fin d → Fin d → ℝ) (w_r w_s : Fin d → ℝ)
    (r_N : Fin B → Fin d → ℝ) (p_N : Fin B → Fin n → ℝ)
    (q : Fin B → Fin d → ℝ)
    (W1 : Fin (d + d) → Fin (d + d) → ℝ) (b1 : Fin (d + d) → ℝ)
    (W2 : Fin oD → Fin (d + d) → ℝ) (b2 : Fin oD → ℝ) :
    (∀ (b : Fin B) (o : Fin oD),
      pre_logits D S r_N p_N q W1 b1 W2 b2 b o =
        (∑ k, W2 o k *
          elu ((∑ k', W1 k k' * Fin.append (m D S r_N p_N b) (q b) k')
            + b1 k)) + b2 o) ∧
    (∀ (b : Fin B) (j : Fin (L + 1)),
      property_R_N D r_N b j =
        softmax (fun t => dot (D t) (r_N b)) j.castSucc) ∧
    (∀ (b : Fin B) (k : Fin d),
      m D S r_N p_N b k =
        ∑ node, p_N b node * ∑ j, property_R_N D r_N b j * S b node j k) ∧
    (∀ (r : Fin B → ℕ → Fin d → ℝ) (steps : ℕ),
      forwardLogits D S E property_W W_L_plus_1 w_r w_s q W1 b1 W2 b2 r
          steps =
        pre_logits D S (fun b => r b steps)
          (simulate D S E property_W W_L_plus_1 w_r w_s r steps)
          q W1 b1 W2 b2) ∧
    (∀ (r r' : Fin B → ℕ → Fin d → ℝ) (steps : ℕ),
      (∀ (b : Fin B) (i : ℕ), i < steps → r b i = r' b i) →
      simulate D S E property_W W_L_plus_1 w_r w_s r steps =
        simulate D S E property_W W_L_plus_1 w_r w_s r' steps) := by
  refine ⟨fun b o => rfl, fun b j => rfl, fun b k => rfl, fun r steps => rfl,
    ?_⟩
  intro r r' steps
  induction steps with
  | zero => intro h; rfl
  | succ i ih =>
      intro h
      have h1 : (fun b => r b i) = fun b => r' b i :=
        funext fun b => h b i (Nat.lt_succ_self i)
      have h2 := ih fun b j hj => h b j (Nat.lt_succ_of_lt hj)
      simp only [simulate, h1, h2]

/-- Witness for C7: two concrete instruction sequences that agree below
index 3 but differ at the terminal index 3 produce the same three-step
simulation. -/
theorem final_classifier_structure_witness :
    simulate (fun _ _ => (0 : ℝ) : Fin 2 → Fin 1 → ℝ)
      (fun _ _ _ _ => (0 : ℝ) : Fin 1 → Fin 2 → Fin 1 → Fin 1 → ℝ)
      cE1 (fun _ _ _ => (0 : ℝ)) cW cw cw
      (fun _ i _ => if i = 3 then 1 else 0) 3 =
    simulate (fun _ _ => (0 : ℝ) : Fin 2 → Fin 1 → ℝ)
      (fun _ _ _ _ => (0 : ℝ) : Fin 1 → Fin 2 → Fin 1 → Fin 1 → ℝ)
      cE1 (fun _ _ _ => (0 : ℝ)) cW cw cw
      (fun _ _ _ => (0 : ℝ)) 3 :=
  (final_classifier_structure (fun _ _ => (0 : ℝ) : Fin 2 → Fin 1 → ℝ)
    (fun _ _ _ _ => (0 : ℝ) : Fin 1 → Fin 2 → Fin 1 → Fin 1 → ℝ)
    cE1 (fun _ _ _ => (0 : ℝ)) cW cw cw cr cp (fun _ _ => (0 : ℝ))
    (fun _ _ => (0 : ℝ)) (fun _ => (0 : ℝ))
    (fun _ _ => (0 : ℝ) : Fin 1 → Fin 2 → ℝ)
    (fun _ => (0 : ℝ))).2.2.2.2
    (fun _ i _ => if i = 3 then 1 else 0) (fun _ _ _ => (0 : ℝ)) 3
    (fun b i hi => funext fun k => by
      simp only [if_neg (by omega : ¬ i = 3)])

/-! ## Batch-pointwise congruence of the forward pass

Every batched operation in the notebook (`bmm`, elementwise products,
softmax over non-batch axes, per-element LSTM application) reads exactly one
batch slice, so each output slice is a function of the corresponding input
slices alone.  These lemmas make that dependence explicit. -/

lemma p_i_next_pt {B B' n d L : ℕ} {D : Fin (L + 2) → Fin d → ℝ}
    {S : Fin B → Fin n → Fin (L + 1) → Fin d → ℝ}
    {S' : Fin B' → Fin n → Fin (L + 1) → Fin d → ℝ}
    {E : Fin B → Fin n → Fin n → Fin d → ℝ}
    {E' : Fin B' → Fin n → Fin n → Fin d → ℝ}
    {property_W : Fin (L + 1) → Fin d → Fin d → ℝ}
    {W_L_plus_1 : Fin d → Fin d → ℝ} {w_r w_s : Fin d → ℝ}
    {r_i : Fin B → Fin d → ℝ} {r_i' : Fin B' → Fin d → ℝ}
    {p : Fin B → Fin n → ℝ} {p' : Fin B' → Fin n → ℝ}
    {b : Fin B} {b' : Fin B'}
    (hS : S b = S' b') (hE : E b = E' b') (hr : r_i b = r_i' b')
    (hp : p b = p' b') :
    p_i_next D S E property_W W_L_plus_1 w_r w_s r_i p b =
      p_i_next D S' E' property_W W_L_plus_1 w_r w_s r_i' p' b' := by
  unfold p_i_next p_i_r p_i_s r_i_prime γ_i_e γ_i_s property_R_i R_i
  simp only [hS, hE, hr, hp]

lemma simulate_pt {B B' n d L : ℕ} {D : Fin (L + 2) → Fin d → ℝ}
    {S : Fin B → Fin n → Fin (L + 1) → Fin d → ℝ}
    {S' : Fin B' → Fin n → Fin (L + 1) → Fin d → ℝ}
    {E : Fin B → Fin n → Fin n → Fin d → ℝ}
    {E' : Fin B' → Fin n → Fin n → Fin d → ℝ}
    {property_W : Fin (L + 1) → Fin d → Fin d → ℝ}
    {W_L_plus_1 : Fin d → Fin d → ℝ} {w_r w_s : Fin d → ℝ}
    {r : Fin B → ℕ → Fin d → ℝ} {r' : Fin B' → ℕ → Fin d → ℝ}
    {b : Fin B} {b' : Fin B'}
    (hS : S b = S' b') (hE : E b = E' b') (hr : r b = r' b') (i : ℕ) :
    simulate D S E property_W W_L_plus_1 w_r w_s r i b =
      simulate D S' E' property_W W_L_plus_1 w_r w_s r' i b' := by
  induction i with
  | zero => rfl
  | succ i ih =>
      simp only [simulate]
      exact p_i_next_pt hS hE (congrFun hr i) ih

lemma V_pt {B B' Q M d : ℕ} {Cmat : Fin (M + 1) → Fin d → ℝ}
    {Wbil : Fin d → Fin d → ℝ}
    {embd : Fin B → Fin Q → Fin d → ℝ} {embd' : Fin B' → Fin Q → Fin d → ℝ}
    {b : Fin B} {b' : Fin B'} (he : embd b = embd' b') :
    V Cmat Wbil embd b = V Cmat Wbil embd' b' := by
  unfold V P_i
  simp only [he]

lemma nsmForward_pt {B B' Q M n d L oD : ℕ}
    {Cmat : Fin (M + 1) → Fin d → ℝ} {Wbil : Fin d → Fin d → ℝ}
    {enc : (Fin Q → Fin d → ℝ) → (Fin d → ℝ) × (Fin d → ℝ)}
    {dec : (ℕ → Fin d → ℝ) → (Fin d → ℝ) × (Fin d → ℝ) → ℕ → Fin d → ℝ}
    {embd : Fin B → Fin Q → Fin d → ℝ} {embd' : Fin B' → Fin Q → Fin d → ℝ}
    {D : Fin (L + 2) → Fin d → ℝ}
    {S : Fin B → Fin n → Fin (L + 1) → Fin d → ℝ}
    {S' : Fin B' → Fin n → Fin (L + 1) → Fin d → ℝ}
    {E : Fin B → Fin n → Fin n → Fin d → ℝ}
    {E' : Fin B' → Fin n → Fin n → Fin d → ℝ}
    {property_W : Fin (L + 1) → Fin d → Fin d → ℝ}
    {W_L_plus_1 : Fin d → Fin d → ℝ} {w_r w_s : Fin d → ℝ}
    {W1 : Fin (d + d) → Fin (d + d) → ℝ} {b1 : Fin (d + d) → ℝ}
    {W2 : Fin oD → Fin (d + d) → ℝ} {b2 : Fin oD → ℝ} {steps : ℕ}
    {b : Fin B} {b' : Fin B'}
    (he : embd b = embd' b') (hS : S b = S' b') (hE : E b = E' b') :
    nsmForward Cmat Wbil enc dec embd D S E property_W W_L_plus_1 w_r w_s
        W1 b1 W2 b2 steps b =
      nsmForward Cmat Wbil enc dec embd' D S' E' property_W W_L_plus_1 w_r
        w_s W1 b1 W2 b2 steps b' := by
  have hV : V Cmat Wbil embd b = V Cmat Wbil embd' b' := V_pt he
  have hq : qctx Cmat Wbil enc embd b = qctx Cmat Wbil enc embd' b' := by
    unfold qctx
    rw [hV]
  have hh : h_dec Cmat Wbil enc dec embd b =
      h_dec Cmat Wbil enc dec embd' b' := by
    unfold h_dec qctx
    rw [hV]
  have hrins : r_instr Cmat Wbil enc dec embd b =
      r_instr Cmat Wbil enc dec embd' b' := by
    funext i k
    unfold r_instr
    simp only [hV, hh]
  have hsim : simulate D S E property_W W_L_plus_1 w_r w_s
        (r_instr Cmat Wbil enc dec embd) steps b =
      simulate D S' E' property_W W_L_plus_1 w_r w_s
        (r_instr Cmat Wbil enc dec embd') steps b' :=
    simulate_pt hS hE hrins steps
  unfold nsmForward forwardLogits pre_logits classifierMLP m property_R_N
  simp only [hS, hsim, hq, congrFun hrins steps]

/-- **C6.** Batch elements are independent end to end: running the forward
pass on the concatenation of two batches (questions, node states and edge
tensors concatenated along the batch axis) yields exactly the concatenation
of the two separate runs' logits, and each batch element's logits depend
only on that element's inputs. -/
theorem batch_independence {Q M n d L oD : ℕ}
    (Cmat : Fin (M + 1) → Fin d → ℝ) (Wbil : Fin d → Fin d → ℝ)
    (enc : (Fin Q → Fin d → ℝ) → (Fin d → ℝ) × (Fin d → ℝ))
    (dec : (ℕ → Fin d → ℝ) → (Fin d → ℝ) × (Fin d → ℝ) → ℕ → Fin d → ℝ)
    (D : Fin (L + 2) → Fin d → ℝ)
    (property_W : Fin (L + 1) → Fin d → Fin d → ℝ)
    (W_L_plus_1 : Fin d → Fin d → ℝ) (w_r w_s : Fin d → ℝ)
    (W1 : Fin (d + d) → Fin (d + d) → ℝ) (b1 : Fin (d + d) → ℝ)
    (W2 : Fin oD → Fin (d + d) → ℝ) (b2 : Fin oD → ℝ) (steps : ℕ)
    {B1 B2 : ℕ}
    (e1 : Fin B1 → Fin Q → Fin d → ℝ) (e2 : Fin B2 → Fin Q → Fin d → ℝ)
    (S1 : Fin B1 → Fin n → Fin (L + 1) → Fin d → ℝ)
    (S2 : Fin B2 → Fin n → Fin (L + 1) → Fin d → ℝ)
    (E1 : Fin B1 → Fin n → Fin n → Fin d → ℝ)
    (E2 : Fin B2 → Fin n → Fin n → Fin d → ℝ) :
    (nsmForward Cmat Wbil enc dec (Fin.append e1 e2) D (Fin.append S1 S2)
        (Fin.append E1 E2) property_W W_L_plus_1 w_r w_s W1 b1 W2 b2 steps =
      Fin.append
        (nsmForward Cmat Wbil enc dec e1 D S1 E1 property_W W_L_plus_1
          w_r w_s W1 b1 W2 b2 steps)
        (nsmForward Cmat Wbil enc dec e2 D S2 E2 property_W W_L_plus_1
          w_r w_s W1 b1 W2 b2 steps)) ∧
    (∀ (B B' : ℕ) (embd : Fin B → Fin Q → Fin d → ℝ)
      (embd' : Fin B' → Fin Q → Fin d → ℝ)
      (S : Fin B → Fin n → Fin (L + 1) → Fin d → ℝ)
      (S' : Fin B' → Fin n → Fin (L + 1) → Fin d → ℝ)
      (E : Fin B → Fin n → Fin n → Fin d → ℝ)
      (E' : Fin B' → Fin n → Fin n → Fin d → ℝ)
      (b : Fin B) (b' : Fin B'),
      embd b = embd' b' → S b = S' b' → E b = E' b' →
      nsmForward Cmat Wbil enc dec embd D S E property_W W_L_plus_1 w_r w_s
          W1 b1 W2 b2 steps b =
        nsmForward Cmat Wbil enc dec embd' D S' E' property_W W_L_plus_1
          w_r w_s W1 b1 W2 b2 steps b') := by
  constructor
  · funext b
    refine Fin.addCases (fun i => ?_) (fun i => ?_) b
    · rw [Fin.append_left]
      exact nsmForward_pt (Fin.append_left e1 e2 i) (Fin.append_left S1 S2 i)
        (Fin.append_left E1 E2 i)
    · rw [Fin.append_right]
      exact nsmForward_pt (Fin.append_right e1 e2 i)
        (Fin.append_right S1 S2 i) (Fin.append_right E1 E2 i)
  · intro B B' embd embd' S S' E E' b b' he hS hE
    exact nsmForward_pt he hS hE

/-- Witness for C6 at a concrete instance (`Q = 1`, `M = 0`, `n = 2`,
`d = 1`, `L = 0`, zero weights and opaque sequence modules returning 0):
batch element 0's logits depend only on its own slices. -/
theorem batch_independence_witness :
    nsmForward (fun _ _ => (0 : ℝ) : Fin 1 → Fin 1 → ℝ) cW
      (fun _ => (fun _ => (0 : ℝ), fun _ => (0 : ℝ)))
      (fun _ _ _ _ => (0 : ℝ))
      (fun _ _ _ => (0 : ℝ) : Fin 1 → Fin 1 → Fin 1 → ℝ)
      (fun _ _ => (0 : ℝ) : Fin 2 → Fin 1 → ℝ)
      (fun _ _ _ _ => (0 : ℝ) : Fin 1 → Fin 2 → Fin 1 → Fin 1 → ℝ)
      cE1 (fun _ _ _ => (0 : ℝ)) cW cw cw
      (fun _ _ => (0 : ℝ) : Fin 2 → Fin 2 → ℝ) (fun _ => (0 : ℝ))
      (fun _ _ => (0 : ℝ) : Fin 1 → Fin 2 → ℝ) (fun _ => (0 : ℝ)) 3 0 =
    nsmForward (fun _ _ => (0 : ℝ) : Fin 1 → Fin 1 → ℝ) cW
      (fun _ => (fun _ => (0 : ℝ), fun _ => (0 : ℝ)))
      (fun _ _ _ _ => (0 : ℝ))
      (fun _ _ _ => (0 : ℝ) : Fin 1 → Fin 1 → Fin 1 → ℝ)
      (fun _ _ => (0 : ℝ) : Fin 2 → Fin 1 → ℝ)
      (fun _ _ _ _ => (0 : ℝ) : Fin 1 → Fin 2 → Fin 1 → Fin 1 → ℝ)
      cE1 (fun _ _ _ => (0 : ℝ)) cW cw cw
      (fun _ _ => (0 : ℝ) : Fin 2 → Fin 2 → ℝ) (fun _ => (0 : ℝ))
      (fun _ _ => (0 : ℝ) : Fin 1 → Fin 2 → ℝ) (fun _ => (0 : ℝ)) 3 0 :=
  (batch_independence (fun _ _ => (0 : ℝ) : Fin 1 → Fin 1 → ℝ) cW
    (fun _ => (fun _ => (0 : ℝ), fun _ => (0 : ℝ)))
    (fun _ _ _ _ => (0 : ℝ))
    (fun _ _ => (0 : ℝ) : Fin 2 → Fin 1 → ℝ)
    (fun _ _ _ => (0 : ℝ) : Fin 1 → Fin 1 → Fin 1 → ℝ)
    cW cw cw
    (fun _ _ => (0 : ℝ) : Fin 2 → Fin 2 → ℝ) (fun _ => (0 : ℝ))
    (fun _ _ => (0 : ℝ) : Fin 1 → Fin 2 → ℝ) (fun _ => (0 : ℝ)) 3
    (fun _ _ _ => (0 : ℝ) : Fin 1 → Fin 1 → Fin 1 → ℝ)
    (fun _ _ _ => (0 : ℝ) : Fin 1 → Fin 1 → Fin 1 → ℝ)
    (fun _ _ _ _ => (0 : ℝ)) (fun _ _ _ _ => (0 : ℝ))
    cE1 cE1).2 1 1
    (fun _ _ _ => (0 : ℝ)) (fun _ _ _ => (0 : ℝ))
    (fun _ _ _ _ => (0 : ℝ)) (fun _ _ _ _ => (0 : ℝ))
    cE1 cE1 0 0 rfl rfl rfl

end

end NSM
